import Mathlib

/-!
Verification of the crafthead `hytale-skin-renderer` rendering core.

The Rust source is shallowly embedded here: `f32` arithmetic is modelled by
exact rational arithmetic (`ℚ`), so every algebraic step of the algorithms
(comparisons, clamping, barycentric interpolation, depth tests, Sutherland-
Hodgman clipping, gradient lookups) is represented exactly.  The only Rust
operations with no exact rational counterpart are `sqrt`-based normalisation
(`glam::Vec3::normalize` inside clip-vertex normal interpolation and the
look-at view-matrix constructor) and `powf`-based gamma mapping in the
optional lighting term; these are kept as explicit function parameters of the
embedding, so every theorem below quantifies over them.
-/

namespace Crafthead

/-- Rust `f32` clamp: `x.clamp(lo, hi)` (`max` then `min`). -/
def clampQ (x lo hi : ℚ) : ℚ := min (max x lo) hi

/-- Rust `f32 -> u32` `as` cast for finite values: truncate toward zero and
saturate to `[0, 2^32 - 1]`. -/
def f32AsU32 (q : ℚ) : ℕ :=
  if q ≤ 0 then 0 else min q.floor.toNat (2 ^ 32 - 1)

/-- Rust `f32::round`: round half away from zero. -/
def roundHalfAway (q : ℚ) : ℤ :=
  if 0 ≤ q then ⌊q + 1 / 2⌋ else ⌈q - 1 / 2⌉

/-- `f32::MAX` as an exact rational (2^128 − 2^104), the "infinitely far"
background value of the depth buffer. -/
def F32_MAX : ℚ := 2 ^ 128 - 2 ^ 104

/-- 3-component vector over ℚ (embeds both `glam::Vec3` and `models::Vector3`,
which hold the same three `f32` fields). -/
structure Vector3 where
  x : ℚ
  y : ℚ
  z : ℚ
  deriving DecidableEq, Repr

/-- 4-component vector over ℚ (embeds `glam::Vec4`). -/
structure Vec4 where
  x : ℚ
  y : ℚ
  z : ℚ
  w : ℚ
  deriving DecidableEq, Repr

/-- Quaternion with the field order of `models::Quaternion` (x, y, z, w). -/
structure Quaternion where
  x : ℚ
  y : ℚ
  z : ℚ
  w : ℚ
  deriving DecidableEq, Repr

/-- Column-major 4×4 matrix, mirroring `glam::Mat4`'s `x_axis … w_axis`
column layout. -/
structure Mat4 where
  xAxis : Vec4
  yAxis : Vec4
  zAxis : Vec4
  wAxis : Vec4
  deriving DecidableEq, Repr

/-- `glam`: `m * v` — linear combination of the columns. -/
def Mat4.mulVec4 (m : Mat4) (v : Vec4) : Vec4 :=
  { x := m.xAxis.x * v.x + m.yAxis.x * v.y + m.zAxis.x * v.z + m.wAxis.x * v.w
    y := m.xAxis.y * v.x + m.yAxis.y * v.y + m.zAxis.y * v.z + m.wAxis.y * v.w
    z := m.xAxis.z * v.x + m.yAxis.z * v.y + m.zAxis.z * v.z + m.wAxis.z * v.w
    w := m.xAxis.w * v.x + m.yAxis.w * v.y + m.zAxis.w * v.z + m.wAxis.w * v.w }

/-- `glam`: matrix product `a * b`, columnwise. -/
def Mat4.mul (a b : Mat4) : Mat4 :=
  { xAxis := a.mulVec4 b.xAxis
    yAxis := a.mulVec4 b.yAxis
    zAxis := a.mulVec4 b.zAxis
    wAxis := a.mulVec4 b.wAxis }

/-- `glam::Mat4::IDENTITY`. -/
def Mat4.identity : Mat4 :=
  { xAxis := ⟨1, 0, 0, 0⟩
    yAxis := ⟨0, 1, 0, 0⟩
    zAxis := ⟨0, 0, 1, 0⟩
    wAxis := ⟨0, 0, 0, 1⟩ }

/-- `glam::Mat4::from_translation`. -/
def Mat4.fromTranslation (v : Vector3) : Mat4 :=
  { xAxis := ⟨1, 0, 0, 0⟩
    yAxis := ⟨0, 1, 0, 0⟩
    zAxis := ⟨0, 0, 1, 0⟩
    wAxis := ⟨v.x, v.y, v.z, 1⟩ }

/-- `glam::Mat4::transform_point3`: multiply by `(p, 1)` and truncate (the
matrices involved are affine). -/
def Mat4.transformPoint3 (m : Mat4) (p : Vector3) : Vector3 :=
  let r := m.mulVec4 ⟨p.x, p.y, p.z, 1⟩
  ⟨r.x, r.y, r.z⟩

/-- `glam::Vec3::lerp`: `a + (b - a) * t`, componentwise. -/
def lerpV3 (a b : Vector3) (t : ℚ) : Vector3 :=
  ⟨a.x + (b.x - a.x) * t, a.y + (b.y - a.y) * t, a.z + (b.z - a.z) * t⟩

/-- `glam::Vec4::lerp`: `a + (b - a) * t`, componentwise. -/
def lerpV4 (a b : Vec4) (t : ℚ) : Vec4 :=
  ⟨a.x + (b.x - a.x) * t, a.y + (b.y - a.y) * t,
   a.z + (b.z - a.z) * t, a.w + (b.w - a.w) * t⟩

/-! ## texture.rs: tint gradients (`TintGradient::lookup`, `lookup_u8`, `apply_tint`) -/

/-- An RGBA pixel (`image::Rgba<u8>`); channels are `u8` values (0–255). -/
structure Rgba where
  r : ℕ
  g : ℕ
  b : ℕ
  a : ℕ
  deriving DecidableEq, Repr

/-- `texture.rs` `TintGradient`: a 1D colour lookup table with optional
inversion and brightness scaling. -/
structure TintGradient where
  pixels : List Rgba
  inverted : Bool
  brightness : ℚ

/-- `TintGradient::lookup` (texture.rs lines 263-271): index
`(grey * (len-1) + 0.5).clamp(0, len-1) as usize`, then a defensive
`min(len-1)` before the table access. -/
def TintGradient.lookup (g : TintGradient) (grey : ℚ) : Rgba :=
  if g.pixels.isEmpty then ⟨255, 255, 255, 255⟩
  else
    let len : ℚ := g.pixels.length
    let index : ℕ := (⌊clampQ (grey * (len - 1) + 1 / 2) 0 (len - 1)⌋).toNat
    g.pixels.getD (min index (g.pixels.length - 1)) ⟨0, 0, 0, 0⟩

/-- `TintGradient::lookup_u8` (texture.rs lines 274-284): apply inversion and
brightness to the grey value, then look up `effective_grey / 255`. -/
def TintGradient.lookupU8 (g : TintGradient) (grey : ℕ) : Rgba :=
  let effectiveGrey := if g.inverted then 255 - grey else grey
  let effectiveGrey :=
    if g.brightness ≠ 1 then
      (⌊clampQ ((roundHalfAway ((effectiveGrey : ℚ) * g.brightness) : ℤ) : ℚ) 0 255⌋).toNat
    else effectiveGrey
  g.lookup ((effectiveGrey : ℚ) / 255)

/-- `apply_tint` (texture.rs lines 300-322): transparent pixels pass through;
greyscale pixels (max−min channel deviation ≤ 1) are recoloured by the
gradient at their integer average luminance, keeping the source alpha;
coloured pixels pass through. -/
def applyTint (pixel : Rgba) (gradient : TintGradient) : Rgba :=
  if pixel.a = 0 then pixel
  else
    let mn := min pixel.r (min pixel.g pixel.b)
    let mx := max pixel.r (max pixel.g pixel.b)
    let deviation := mx - mn
    if deviation ≤ 1 then
      let luminance := (pixel.r + pixel.g + pixel.b) / 3
      let tinted := gradient.lookupU8 luminance
      ⟨tinted.r, tinted.g, tinted.b, pixel.a⟩
    else pixel

/-- The spec's "identity gradient": the 256-entry lookup table whose `i`-th
entry is the opaque grey `(i, i, i, 255)`, with no inversion and unit
brightness. -/
def identityGradient : TintGradient :=
  { pixels := (List.range 256).map fun i => ⟨i, i, i, 255⟩
    inverted := false
    brightness := 1 }

/-! ## renderer/clip.rs: frustum clipping -/

/-- The six clip-space frustum planes (`ClipPlane`). -/
inductive ClipPlane
  | left
  | right
  | bottom
  | top
  | near
  | far
  deriving DecidableEq, Repr

/-- `ClipVertex`: world position, UV, homogeneous clip position, normal. -/
structure ClipVertex where
  worldPos : Vector3
  uv : ℚ × ℚ
  clipPos : Vec4
  normal : Vector3
  deriving DecidableEq, Repr

instance : Inhabited ClipVertex :=
  ⟨⟨⟨0, 0, 0⟩, (0, 0), ⟨0, 0, 0, 0⟩, ⟨0, 0, 0⟩⟩⟩

/-- `signed_distance` (clip.rs lines 195-204). -/
def signedDistance (clipPos : Vec4) (plane : ClipPlane) : ℚ :=
  match plane with
  | .left => clipPos.x + clipPos.w
  | .right => clipPos.w - clipPos.x
  | .bottom => clipPos.y + clipPos.w
  | .top => clipPos.w - clipPos.y
  | .near => clipPos.z + clipPos.w
  | .far => clipPos.w - clipPos.z

/-- `is_inside` (clip.rs lines 138-142): signed distance ≥ 0. -/
def isInside (vertex : ClipVertex) (plane : ClipPlane) : Bool :=
  decide (0 ≤ signedDistance vertex.clipPos plane)

/-- The `1e-10` denominator epsilon of `compute_intersection_t`. -/
def CLIP_EPS : ℚ := 1 / 10 ^ 10

/-- `compute_intersection_t` (clip.rs lines 164-190): midpoint fallback for a
near-parallel edge, otherwise `d1/(d1-d2)` clamped to `[0,1]`; always `Some`. -/
def computeIntersectionT (v1 v2 : ClipVertex) (plane : ClipPlane) : Option ℚ :=
  let d1 := signedDistance v1.clipPos plane
  let d2 := signedDistance v2.clipPos plane
  let denominator := d1 - d2
  if |denominator| < CLIP_EPS then some (1 / 2)
  else some (clampQ (d1 / denominator) 0 1)

/-- `compute_intersection` (clip.rs lines 145-161).  `nf` stands for
`glam::Vec3::normalize` applied to the lerped normal (kept abstract: exact
rationals have no square root). -/
def computeIntersection (nf : Vector3 → Vector3) (v1 v2 : ClipVertex)
    (plane : ClipPlane) : Option ClipVertex :=
  match computeIntersectionT v1 v2 plane with
  | none => none
  | some t =>
    some { worldPos := lerpV3 v1.worldPos v2.worldPos t
           uv := (v1.uv.1 + t * (v2.uv.1 - v1.uv.1), v1.uv.2 + t * (v2.uv.2 - v1.uv.2))
           clipPos := lerpV4 v1.clipPos v2.clipPos t
           normal := nf (lerpV3 v1.normal v2.normal t) }

/-- One edge of the Sutherland-Hodgman loop (clip.rs lines 103-132): what is
pushed onto `output` for the edge from `vertices[i]` to `vertices[(i+1) % n]`. -/
def shEmit (nf : Vector3 → Vector3) (vertices : List ClipVertex) (plane : ClipPlane)
    (i : ℕ) : List ClipVertex :=
  let current := vertices.getD i default
  let next := vertices.getD ((i + 1) % vertices.length) default
  match isInside current plane, isInside next plane with
  | true, true => [next]
  | true, false =>
    match computeIntersection nf current next plane with
    | some intersection => [intersection]
    | none => []
  | false, true =>
    (match computeIntersection nf current next plane with
     | some intersection => [intersection]
     | none => []) ++ [next]
  | false, false => []

/-- `sutherland_hodgman_clip` (clip.rs lines 95-135). -/
def sutherlandHodgmanClip (nf : Vector3 → Vector3) (vertices : List ClipVertex)
    (plane : ClipPlane) : List ClipVertex :=
  if vertices.length < 3 then []
  else (List.range vertices.length).flatMap (shEmit nf vertices plane)

/-- Plane order of both the trivial-rejection scan and the clipping loop
(clip.rs lines 53-60 and 74-81): near first. -/
def frustumPlanes : List ClipPlane :=
  [.near, .left, .right, .bottom, .top, .far]

/-- `is_trivially_rejected` (clip.rs lines 73-90). -/
def isTriviallyRejected (vertices : List ClipVertex) : Bool :=
  frustumPlanes.any fun plane => vertices.all fun v => ! isInside v plane

/-- The `for plane in &planes` loop of `clip_face_to_frustum` (clip.rs lines
62-67): clip against each plane in turn, giving up when fewer than 3 vertices
remain. -/
def clipAgainstPlanes (nf : Vector3 → Vector3) :
    List ClipPlane → List ClipVertex → Option (List ClipVertex)
  | [], vertices => some vertices
  | plane :: rest, vertices =>
    let clipped := sutherlandHodgmanClip nf vertices plane
    if clipped.length < 3 then none
    else clipAgainstPlanes nf rest clipped

/-- `geometry::Vertex`. -/
structure Vertex where
  position : Vector3
  normal : Vector3
  uv : ℚ × ℚ
  deriving DecidableEq, Repr

/-- `geometry::Face`. -/
structure Face where
  vertices : List Vertex
  textureFace : String
  deriving DecidableEq, Repr

/-- The clip-space lift of one face vertex (clip.rs lines 30-43). -/
def toClipVertex (vpMatrix : Mat4) (v : Vertex) : ClipVertex :=
  { worldPos := v.position
    uv := v.uv
    clipPos := vpMatrix.mulVec4 ⟨v.position.x, v.position.y, v.position.z, 1⟩
    normal := v.normal }

/-- `clip_face_to_frustum` (clip.rs lines 28-70). -/
def clipFaceToFrustum (nf : Vector3 → Vector3) (face : Face) (vpMatrix : Mat4) :
    Option (List ClipVertex) :=
  let vertices := face.vertices.map (toClipVertex vpMatrix)
  if isTriviallyRejected vertices then none
  else clipAgainstPlanes nf frustumPlanes vertices

/-! ## math.rs and scene.rs: transforms and pose resolution -/

/-- `‖q‖²` — the squared norm used to express the rotation matrix of the
normalised quaternion without a square root. -/
def quatNormSq (q : Quaternion) : ℚ :=
  q.x * q.x + q.y * q.y + q.z * q.z + q.w * q.w

/-- `glam::Mat4::from_scale_rotation_translation(scale, q/‖q‖, translation)`
expanded over ℚ.  The rotation matrix of the normalised quaternion uses only
products of two components divided by `‖q‖²`, so it is an exact rational
function of `q`: each doubled product `2·a·b` of the unit-quaternion formula
becomes `2·a·b/n` with `n = ‖q‖²`. -/
def fromScaleRotationTranslation (scale : Vector3) (q : Quaternion)
    (translation : Vector3) : Mat4 :=
  let n := quatNormSq q
  { xAxis := ⟨(1 - 2 * (q.y * q.y + q.z * q.z) / n) * scale.x,
              (2 * (q.x * q.y + q.w * q.z) / n) * scale.x,
              (2 * (q.x * q.z - q.w * q.y) / n) * scale.x, 0⟩
    yAxis := ⟨(2 * (q.x * q.y - q.w * q.z) / n) * scale.y,
              (1 - 2 * (q.x * q.x + q.z * q.z) / n) * scale.y,
              (2 * (q.y * q.z + q.w * q.x) / n) * scale.y, 0⟩
    zAxis := ⟨(2 * (q.x * q.z + q.w * q.y) / n) * scale.z,
              (2 * (q.y * q.z - q.w * q.x) / n) * scale.z,
              (1 - 2 * (q.x * q.x + q.y * q.y) / n) * scale.z, 0⟩
    wAxis := ⟨translation.x, translation.y, translation.z, 1⟩ }

/-- `build_transform_matrix` (math.rs lines 26-32): the quaternion is
normalised by `quat_from_blockymodel` before the matrix is built, which
`fromScaleRotationTranslation` already incorporates. -/
def buildTransformMatrix (position : Vector3) (rotation : Quaternion)
    (scale : Vector3) : Mat4 :=
  fromScaleRotationTranslation scale rotation position

/-- `build_transform_with_offset` (math.rs lines 35-44). -/
def buildTransformWithOffset (position : Vector3) (rotation : Quaternion)
    (scale : Vector3) (offset : Vector3) : Mat4 :=
  (buildTransformMatrix position rotation scale).mul (Mat4.fromTranslation offset)

/-- `multiply_transforms` (math.rs lines 47-49). -/
def multiplyTransforms (a b : Mat4) : Mat4 := a.mul b

/-- `multiply_quaternions` (scene.rs lines 246-257): Hamilton product
`q1 * q2`. -/
def multiplyQuaternions (q1 q2 : Quaternion) : Quaternion :=
  { w := q1.w * q2.w - q1.x * q2.x - q1.y * q2.y - q1.z * q2.z
    x := q1.w * q2.x + q1.x * q2.w + q1.y * q2.z - q1.z * q2.y
    y := q1.w * q2.y - q1.x * q2.z + q1.y * q2.w + q1.z * q2.x
    z := q1.w * q2.z + q1.x * q2.y - q1.y * q2.x + q1.z * q2.w }

/-- `animation.rs` `NodePose`: optional position and orientation deltas. -/
structure NodePose where
  positionDelta : Option Vector3
  orientationDelta : Option Quaternion

/-- `AnimationPose`: node name → optional pose entry (`HashMap::get`). -/
def AnimationPose := String → Option NodePose

/-- `models::Shape`, restricted to the fields the renderer core reads
(offset, stretch, visibility, double-sidedness); the texture layout and
per-kind settings only matter to geometry generation and sampling. -/
structure Shape where
  offset : Vector3
  stretch : Vector3
  visible : Bool
  doubleSided : Bool
  deriving DecidableEq, Repr

/-- `models::Node`, restricted to the per-node fields `build_scene_node`
reads when resolving one node's transform (children drive only the
recursion). -/
structure Node where
  id : String
  name : String
  position : Vector3
  orientation : Quaternion
  shape : Option Shape

/-- The world-transform computation of `build_scene_node` (scene.rs lines
299-356): pose deltas applied to the local position/orientation, a local
transform with unit scale and zero offset, composition onto the parent, and
the joint-spacing shift only when no pose is supplied.  The result of
`calculate_joint_spacing` is passed in as `spacing`; it is consulted only on
the pose-free path. -/
def resolveWorldTransform (node : Node) (parentTransform : Mat4) (spacing : ℚ)
    (pose : Option AnimationPose) : Mat4 :=
  let deltas : Option Vector3 × Option Quaternion :=
    match pose with
    | some p =>
      match p node.name with
      | some nodePose => (nodePose.positionDelta, nodePose.orientationDelta)
      | none => (none, none)
    | none => (none, none)
  let finalPosition : Vector3 :=
    match deltas.1 with
    | some delta =>
      ⟨node.position.x + delta.x, node.position.y + delta.y, node.position.z + delta.z⟩
    | none => node.position
  let finalOrientation : Quaternion :=
    match deltas.2 with
    | some delta => multiplyQuaternions node.orientation delta
    | none => node.orientation
  let nodeTransform := buildTransformWithOffset finalPosition finalOrientation ⟨1, 1, 1⟩ ⟨0, 0, 0⟩
  let worldTransform := multiplyTransforms parentTransform nodeTransform
  if pose.isNone then
    if spacing > 0 then worldTransform.mul (Mat4.fromTranslation ⟨0, -spacing, 0⟩)
    else worldTransform
  else worldTransform

/-! ## renderer/math.rs and renderer/rasterizer.rs -/

/-- The `1e-10` degenerate-triangle epsilon of `barycentric_coords`. -/
def BARY_EPS : ℚ := 1 / 10 ^ 10

/-- `barycentric_coords` (renderer/math.rs lines 18-59). -/
def barycentricCoords (px py x0 y0 x1 y1 x2 y2 : ℚ) : ℚ × ℚ × ℚ :=
  let v0x := x2 - x0
  let v0y := y2 - y0
  let v1x := x1 - x0
  let v1y := y1 - y0
  let v2x := px - x0
  let v2y := py - y0
  let dot00 := v0x * v0x + v0y * v0y
  let dot01 := v0x * v1x + v0y * v1y
  let dot02 := v0x * v2x + v0y * v2y
  let dot11 := v1x * v1x + v1y * v1y
  let dot12 := v1x * v2x + v1y * v2y
  let denom := dot00 * dot11 - dot01 * dot01
  if |denom| < BARY_EPS then (-1, -1, -1)
  else
    let invDenom := 1 / denom
    let u := (dot11 * dot02 - dot01 * dot12) * invDenom
    let v := (dot00 * dot12 - dot01 * dot02) * invDenom
    (u, v, 1 - u - v)

/-- `DEPTH_BIAS` (rasterizer.rs line 21). -/
def DEPTH_BIAS : ℚ := 1 / 1000

/-- The mutable buffers of the rasterizer: the `RgbaImage` (indexed `x, y`)
and the flat `f32` depth buffer (indexed `y * output_width + x`). -/
structure RasterState where
  pix : ℕ → ℕ → Rgba
  depth : ℕ → ℚ

/-- The fresh buffers of `render_scene_internal` (renderer/mod.rs lines
183-188): a zeroed `RgbaImage` and a depth buffer filled with `f32::MAX`. -/
def initialRasterState : RasterState :=
  { pix := fun _ _ => ⟨0, 0, 0, 0⟩
    depth := fun _ => F32_MAX }

/-- `apply_gamma` applied to the three colour channels with alpha unchanged
(rasterizer.rs lines 185-195).  `gamma : ℕ → ℕ` stands for the per-channel
`powf`-based map, which has no exact rational counterpart; this shape makes
explicit that lighting never touches alpha. -/
def applyLighting (gamma : ℕ → ℕ) (pixel : Rgba) : Rgba :=
  ⟨gamma pixel.r, gamma pixel.g, gamma pixel.b, pixel.a⟩

/-- The colour produced for a fragment at interpolated texture coordinates
(rasterizer.rs lines 75-198): the eight-way `sample_face_texture*` dispatch
is loop-invariant apart from the interpolated UV, so it is folded into the
`sample` parameter; then the optional lighting term. -/
def litSample (sample : ℚ → ℚ → Rgba) (lightingEnabled : Bool) (gamma : ℕ → ℕ)
    (texU texV : ℚ) : Rgba :=
  let pixel := sample texU texV
  if lightingEnabled then applyLighting gamma pixel else pixel

/-- The scan-loop body at pixel `(x, y)` (rasterizer.rs lines 60-204):
pixel-centre barycentric test, depth test against the buffer with
`DEPTH_BIAS`, UV interpolation, sampling/lighting, and the guarded write. -/
def rasterStep (sample : ℚ → ℚ → Rgba) (lightingEnabled : Bool) (gamma : ℕ → ℕ)
    (outputWidth : ℕ) (v0 v1 v2 : ℚ × ℚ × ℚ) (uv0 uv1 uv2 : ℚ × ℚ)
    (state : RasterState) (yx : ℕ × ℕ) : RasterState :=
  let y := yx.1
  let x := yx.2
  let px : ℚ := (x : ℚ) + 1 / 2
  let py : ℚ := (y : ℚ) + 1 / 2
  let bary := barycentricCoords px py v0.1 v0.2.1 v1.1 v1.2.1 v2.1 v2.2.1
  if 0 ≤ bary.1 ∧ 0 ≤ bary.2.1 ∧ 0 ≤ bary.2.2 then
    let depth := bary.2.2 * v0.2.2 + bary.2.1 * v1.2.2 + bary.1 * v2.2.2
    let bufferIndex := y * outputWidth + x
    if depth < state.depth bufferIndex - DEPTH_BIAS then
      let texU := bary.2.2 * uv0.1 + bary.2.1 * uv1.1 + bary.1 * uv2.1
      let texV := bary.2.2 * uv0.2 + bary.2.1 * uv1.2 + bary.1 * uv2.2
      let pixel := litSample sample lightingEnabled gamma texU texV
      if 0 < pixel.a then
        { pix := fun a b => if a = x ∧ b = y then pixel else state.pix a b
          depth := fun i => if i = bufferIndex then depth else state.depth i }
      else state
    else state
  else state

/-- Inclusive range `a..=b` over ℕ (`u32` loop range; empty when `a > b`). -/
def rangeIncl (a b : ℕ) : List ℕ := (List.range (b + 1 - a)).map (a + ·)

/-- The scan window of `render_triangle_tinted` (rasterizer.rs lines 53-59):
the `(y, x)` pixel pairs visited by the two nested loops
`min_y..=max_y.min(h-1)` × `min_x..=max_x.min(w-1)`. -/
def scanPairs (width height : ℕ) (x0 x1 x2 y0 y1 y2 : ℚ) : List (ℕ × ℕ) :=
  let minX := f32AsU32 (max (min (min x0 x1) x2) 0)
  let maxX := f32AsU32 (min (max (max x0 x1) x2) (width : ℚ))
  let minY := f32AsU32 (max (min (min y0 y1) y2) 0)
  let maxY := f32AsU32 (min (max (max y0 y1) y2) (height : ℚ))
  (rangeIncl minY (min maxY (height - 1))).flatMap fun y =>
    (rangeIncl minX (min maxX (width - 1))).map fun x => (y, x)

/-- `render_triangle_tinted` (rasterizer.rs lines 25-210): the guard for
exactly 3 vertices/UVs, then the scan loop folded over the window. -/
def renderTriangleTinted (width height outputWidth : ℕ)
    (vertices : List (ℚ × ℚ × ℚ)) (uvs : List (ℚ × ℚ))
    (sample : ℚ → ℚ → Rgba) (lightingEnabled : Bool) (gamma : ℕ → ℕ)
    (state : RasterState) : RasterState :=
  match vertices, uvs with
  | [v0, v1, v2], [uv0, uv1, uv2] =>
    (scanPairs width height v0.1 v1.1 v2.1 v0.2.1 v1.2.1 v2.2.1).foldl
      (rasterStep sample lightingEnabled gamma outputWidth v0 v1 v2 uv0 uv1 uv2)
      state
  | _, _ => state

/-! ## camera.rs and renderer/mod.rs: projection and backface culling -/

/-- `Camera::calculate_depth` (camera.rs lines 217-224; identical body in
`PerspectiveCamera::calculate_depth`, lines 364-369): the negated view-space
Z of the world point.  The `look_at_rh` view-matrix construction involves
square roots, so the view matrix is a parameter. -/
def cameraCalculateDepth (view : Mat4) (point : Vector3) : ℚ :=
  -(view.transformPoint3 point).z

/-- The `dyn CameraProjection` interface consumed by `render_scene_internal`:
a view-projection matrix and a depth metric. -/
structure CameraIface where
  vpMatrix : Mat4
  calcDepth : Vector3 → ℚ

/-- `RenderableFace` (renderer/mod.rs lines 54-61), restricted to the fields
the clipping/projection/culling stage reads; the per-face texture and tint
override handles only affect later sampling. -/
structure RenderableFace where
  face : Face
  transform : Mat4
  shape : Option Shape
  nodeName : Option String

/-- The entry pushed onto `render_faces` (mod.rs lines 297-308), restricted
to its geometric fields. -/
structure RenderFace where
  screenVertices : List (ℚ × ℚ × ℚ)
  faceVertices : List (Vector3 × (ℚ × ℚ))
  normal : Vector3
  deriving DecidableEq, Repr

/-- Projection of one clipped vertex (mod.rs lines 239-258): perspective
divide, viewport transform with Y flip, and the camera's view-space depth
metric as the third component. -/
def projectClipVertex (cam : CameraIface) (outputWidth outputHeight : ℕ)
    (cv : ClipVertex) : ℚ × ℚ × ℚ :=
  let ndcX := cv.clipPos.x / cv.clipPos.w
  let ndcY := cv.clipPos.y / cv.clipPos.w
  ((ndcX + 1) * (1 / 2) * (outputWidth : ℚ),
   (1 - ndcY) * (1 / 2) * (outputHeight : ℚ),
   cam.calcDepth cv.worldPos)

/-- Number of strictly negative stretch components (mod.rs lines 268-273). -/
def negStretchCount (s : Shape) : ℕ :=
  (if s.stretch.x < 0 then 1 else 0) + (if s.stretch.y < 0 then 1 else 0) +
    (if s.stretch.z < 0 then 1 else 0)

/-- The per-face body of `render_scene_internal`'s projection loop (mod.rs
lines 221-310): clip to the frustum, project to screen space, backface-cull
unless double-sided; `none` when the face is clipped away or culled. -/
def processFace (nf : Vector3 → Vector3) (cam : CameraIface)
    (outputWidth outputHeight : ℕ) (rf : RenderableFace) : Option RenderFace :=
  match clipFaceToFrustum nf rf.face cam.vpMatrix with
  | none => none
  | some clippedVertices =>
    let faceNormal := (clippedVertices.getD 0 default).normal
    let screenVertices := clippedVertices.map (projectClipVertex cam outputWidth outputHeight)
    let faceVertices := clippedVertices.map fun cv => (cv.worldPos, cv.uv)
    if 3 ≤ screenVertices.length then
      let isDoubleSided : Bool :=
        match rf.shape with
        | some s => s.doubleSided
        | none => false
      let culled : Bool :=
        if isDoubleSided then false
        else
          let windingFlipped : Bool :=
            match rf.shape with
            | some s => decide (negStretchCount s % 2 = 1)
            | none => false
          let s0 := screenVertices.getD 0 default
          let s1 := screenVertices.getD 1 default
          let s2 := screenVertices.getD 2 default
          let signedArea := (s1.1 - s0.1) * (s2.2.1 - s0.2.1) - (s2.1 - s0.1) * (s1.2.1 - s0.2.1)
          if windingFlipped then decide (signedArea < 0) else decide (signedArea > 0)
      if culled then none
      else
        some { screenVertices := screenVertices, faceVertices := faceVertices,
               normal := faceNormal }
    else none

/-! ## Pixel-level views of the rasterizer loop body -/

/-- Barycentric weights of the centre of pixel `(x, y)` against a screen
triangle, exactly as the scan loop computes them. -/
def pixelBary (v0 v1 v2 : ℚ × ℚ × ℚ) (x y : ℕ) : ℚ × ℚ × ℚ :=
  barycentricCoords ((x : ℚ) + 1 / 2) ((y : ℚ) + 1 / 2)
    v0.1 v0.2.1 v1.1 v1.2.1 v2.1 v2.2.1

/-- The coverage test of the scan loop: all three weights nonnegative. -/
def pixelCovered (v0 v1 v2 : ℚ × ℚ × ℚ) (x y : ℕ) : Prop :=
  0 ≤ (pixelBary v0 v1 v2 x y).1 ∧ 0 ≤ (pixelBary v0 v1 v2 x y).2.1 ∧
    0 ≤ (pixelBary v0 v1 v2 x y).2.2

instance (v0 v1 v2 : ℚ × ℚ × ℚ) (x y : ℕ) : Decidable (pixelCovered v0 v1 v2 x y) := by
  unfold pixelCovered
  infer_instance

/-- The interpolated depth of the scan loop at pixel `(x, y)`. -/
def pixelDepth (v0 v1 v2 : ℚ × ℚ × ℚ) (x y : ℕ) : ℚ :=
  (pixelBary v0 v1 v2 x y).2.2 * v0.2.2 + (pixelBary v0 v1 v2 x y).2.1 * v1.2.2 +
    (pixelBary v0 v1 v2 x y).1 * v2.2.2

/-- The interpolated texture coordinates of the scan loop at pixel `(x, y)`. -/
def pixelTexUV (v0 v1 v2 : ℚ × ℚ × ℚ) (uv0 uv1 uv2 : ℚ × ℚ) (x y : ℕ) : ℚ × ℚ :=
  ((pixelBary v0 v1 v2 x y).2.2 * uv0.1 + (pixelBary v0 v1 v2 x y).2.1 * uv1.1 +
     (pixelBary v0 v1 v2 x y).1 * uv2.1,
   (pixelBary v0 v1 v2 x y).2.2 * uv0.2 + (pixelBary v0 v1 v2 x y).2.1 * uv1.2 +
     (pixelBary v0 v1 v2 x y).1 * uv2.2)

/-- The fragment colour of the scan loop at pixel `(x, y)`. -/
def pixelColor (sample : ℚ → ℚ → Rgba) (lightingEnabled : Bool) (gamma : ℕ → ℕ)
    (v0 v1 v2 : ℚ × ℚ × ℚ) (uv0 uv1 uv2 : ℚ × ℚ) (x y : ℕ) : Rgba :=
  litSample sample lightingEnabled gamma
    (pixelTexUV v0 v1 v2 uv0 uv1 uv2 x y).1 (pixelTexUV v0 v1 v2 uv0 uv1 uv2 x y).2

lemma rasterStep_apply (sample : ℚ → ℚ → Rgba) (le : Bool) (ga : ℕ → ℕ) (ow : ℕ)
    (v0 v1 v2 : ℚ × ℚ × ℚ) (uv0 uv1 uv2 : ℚ × ℚ) (s : RasterState) (y x : ℕ) :
    rasterStep sample le ga ow v0 v1 v2 uv0 uv1 uv2 s (y, x) =
      if pixelCovered v0 v1 v2 x y then
        if pixelDepth v0 v1 v2 x y < s.depth (y * ow + x) - DEPTH_BIAS then
          if 0 < (pixelColor sample le ga v0 v1 v2 uv0 uv1 uv2 x y).a then
            { pix := fun a b =>
                if a = x ∧ b = y then pixelColor sample le ga v0 v1 v2 uv0 uv1 uv2 x y
                else s.pix a b
              depth := fun i =>
                if i = y * ow + x then pixelDepth v0 v1 v2 x y else s.depth i }
          else s
        else s
      else s := rfl

/-! ## Scan-window lemmas -/

lemma mem_rangeIncl {a b n : ℕ} : n ∈ rangeIncl a b ↔ a ≤ n ∧ n ≤ b := by
  constructor
  · intro h
    obtain ⟨k, hk, rfl⟩ := List.mem_map.mp h
    have := List.mem_range.mp hk
    omega
  · intro ⟨h1, h2⟩
    exact List.mem_map.mpr ⟨n - a, List.mem_range.mpr (by omega), by omega⟩

lemma nodup_rangeIncl (a b : ℕ) : (rangeIncl a b).Nodup :=
  (List.nodup_range _).map fun x y h => by omega

lemma mem_scanPairs {width height : ℕ} {x0 x1 x2 y0 y1 y2 : ℚ} {y x : ℕ} :
    (y, x) ∈ scanPairs width height x0 x1 x2 y0 y1 y2 ↔
      (f32AsU32 (max (min (min y0 y1) y2) 0) ≤ y ∧
        y ≤ min (f32AsU32 (min (max (max y0 y1) y2) (height : ℚ))) (height - 1)) ∧
      (f32AsU32 (max (min (min x0 x1) x2) 0) ≤ x ∧
        x ≤ min (f32AsU32 (min (max (max x0 x1) x2) (width : ℚ))) (width - 1)) := by
  unfold scanPairs
  constructor
  · intro h
    obtain ⟨y', hy, h2⟩ := List.mem_flatMap.mp h
    obtain ⟨x', hx, heq⟩ := List.mem_map.mp h2
    obtain ⟨rfl, rfl⟩ := Prod.mk.injEq .. ▸ (by exact Prod.mk.inj heq.symm : y = y' ∧ x = x')
    exact ⟨mem_rangeIncl.mp hy, mem_rangeIncl.mp hx⟩
  · intro ⟨hy, hx⟩
    exact List.mem_flatMap.mpr ⟨y, mem_rangeIncl.mpr hy,
      List.mem_map.mpr ⟨x, mem_rangeIncl.mpr hx, rfl⟩⟩

lemma nodup_scanPairs (width height : ℕ) (x0 x1 x2 y0 y1 y2 : ℚ) :
    (scanPairs width height x0 x1 x2 y0 y1 y2).Nodup := by
  unfold scanPairs
  refine List.nodup_flatMap.mpr ⟨fun yv _ => ?_, ?_⟩
  · exact (nodup_rangeIncl _ _).map fun a b h => by
      simpa using congrArg Prod.snd h
  · refine (nodup_rangeIncl _ _).imp ?_
    intro a b hne z hza hzb
    obtain ⟨xa, -, rfl⟩ := List.mem_map.mp hza
    obtain ⟨xb, -, heq⟩ := List.mem_map.mp hzb
    exact hne (by simpa using congrArg Prod.fst heq.symm)

lemma scanPairs_bounds {width height : ℕ} (hw : 0 < width) (hh : 0 < height)
    {x0 x1 x2 y0 y1 y2 : ℚ} {p : ℕ × ℕ}
    (hp : p ∈ scanPairs width height x0 x1 x2 y0 y1 y2) :
    p.2 < width ∧ p.1 < height ∧ p.1 * width + p.2 < width * height := by
  obtain ⟨y, x⟩ := p
  obtain ⟨⟨-, hy⟩, -, hx⟩ := mem_scanPairs.mp hp
  have hx2 : x < width := by omega
  have hy2 : y < height := by omega
  refine ⟨hx2, hy2, ?_⟩
  show y * width + x < width * height
  have h1 : y * width ≤ (height - 1) * width :=
    Nat.mul_le_mul_right _ (by omega)
  have h2 : (height - 1) * width + width = height * width := by
    have : height - 1 + 1 = height := by omega
    calc (height - 1) * width + width = (height - 1 + 1) * width := by rw [Nat.succ_mul]
      _ = height * width := by rw [this]
  have := Nat.mul_comm width height
  omega

/-! ## Effect of the scan fold at a single pixel -/

lemma flatIndex_inj {ow a b c d : ℕ} (hb : b < ow) (hd : d < ow)
    (h : a * ow + b = c * ow + d) : a = c ∧ b = d := by
  have hb' : (a * ow + b) % ow = b := by
    rw [Nat.add_comm, Nat.add_mul_mod_self_right]; exact Nat.mod_eq_of_lt hb
  have hd' : (c * ow + d) % ow = d := by
    rw [Nat.add_comm, Nat.add_mul_mod_self_right]; exact Nat.mod_eq_of_lt hd
  have hbd : b = d := by rw [← hb', ← hd', h]
  have how : 0 < ow := by omega
  have hac : a * ow = c * ow := by omega
  exact ⟨Nat.eq_of_mul_eq_mul_right how hac, hbd⟩

lemma rasterStep_ne (sample : ℚ → ℚ → Rgba) (le : Bool) (ga : ℕ → ℕ) (ow : ℕ)
    (v0 v1 v2 : ℚ × ℚ × ℚ) (uv0 uv1 uv2 : ℚ × ℚ) {x y : ℕ} {q : ℕ × ℕ}
    (hx : x < ow) (hq : q.2 < ow) (hne : q ≠ (y, x)) (s : RasterState) :
    (rasterStep sample le ga ow v0 v1 v2 uv0 uv1 uv2 s q).pix x y = s.pix x y ∧
    (rasterStep sample le ga ow v0 v1 v2 uv0 uv1 uv2 s q).depth (y * ow + x) =
      s.depth (y * ow + x) := by
  obtain ⟨qy, qx⟩ := q
  rw [rasterStep_apply]
  split_ifs with h1 h2 h3
  · constructor
    · show (if x = qx ∧ y = qy then _ else s.pix x y) = s.pix x y
      rw [if_neg]
      rintro ⟨rfl, rfl⟩
      exact hne rfl
    · show (if y * ow + x = qy * ow + qx then _ else s.depth (y * ow + x)) =
        s.depth (y * ow + x)
      rw [if_neg]
      intro h
      obtain ⟨hy2, hx2⟩ := flatIndex_inj hx hq h
      exact hne (by rw [hy2, hx2])
  · exact ⟨rfl, rfl⟩
  · exact ⟨rfl, rfl⟩
  · exact ⟨rfl, rfl⟩

lemma rasterStep_congr_at (sample : ℚ → ℚ → Rgba) (le : Bool) (ga : ℕ → ℕ) (ow : ℕ)
    (v0 v1 v2 : ℚ × ℚ × ℚ) (uv0 uv1 uv2 : ℚ × ℚ) {x y : ℕ} {s t : RasterState}
    (hpix : s.pix x y = t.pix x y)
    (hdepth : s.depth (y * ow + x) = t.depth (y * ow + x)) :
    (rasterStep sample le ga ow v0 v1 v2 uv0 uv1 uv2 s (y, x)).pix x y =
      (rasterStep sample le ga ow v0 v1 v2 uv0 uv1 uv2 t (y, x)).pix x y ∧
    (rasterStep sample le ga ow v0 v1 v2 uv0 uv1 uv2 s (y, x)).depth (y * ow + x) =
      (rasterStep sample le ga ow v0 v1 v2 uv0 uv1 uv2 t (y, x)).depth (y * ow + x) := by
  rw [rasterStep_apply, rasterStep_apply, hdepth]
  split_ifs with h1 h2 h3
  · exact ⟨by simp, by simp⟩
  · exact ⟨hpix, hdepth⟩
  · exact ⟨hpix, hdepth⟩
  · exact ⟨hpix, hdepth⟩

lemma foldl_rasterStep_not_mem (sample : ℚ → ℚ → Rgba) (le : Bool) (ga : ℕ → ℕ)
    (ow : ℕ) (v0 v1 v2 : ℚ × ℚ × ℚ) (uv0 uv1 uv2 : ℚ × ℚ) {x y : ℕ} (hx : x < ow) :
    ∀ (L : List (ℕ × ℕ)) (s : RasterState), (∀ q ∈ L, q.2 < ow) → (y, x) ∉ L →
      (L.foldl (rasterStep sample le ga ow v0 v1 v2 uv0 uv1 uv2) s).pix x y = s.pix x y ∧
      (L.foldl (rasterStep sample le ga ow v0 v1 v2 uv0 uv1 uv2) s).depth (y * ow + x) =
        s.depth (y * ow + x) := by
  intro L
  induction L with
  | nil => exact fun s _ _ => ⟨rfl, rfl⟩
  | cons q tl ih =>
    intro s hL hmem
    have hq : q.2 < ow := hL q (List.mem_cons_self q tl)
    have hne : q ≠ (y, x) := fun h => hmem (h ▸ List.mem_cons_self q tl)
    have hstep := rasterStep_ne sample le ga ow v0 v1 v2 uv0 uv1 uv2 hx hq hne s
    have htl := ih (rasterStep sample le ga ow v0 v1 v2 uv0 uv1 uv2 s q)
      (fun r hr => hL r (List.mem_cons_of_mem _ hr))
      (fun h => hmem (List.mem_cons_of_mem _ h))
    exact ⟨htl.1.trans hstep.1, htl.2.trans hstep.2⟩

lemma foldl_rasterStep_mem (sample : ℚ → ℚ → Rgba) (le : Bool) (ga : ℕ → ℕ)
    (ow : ℕ) (v0 v1 v2 : ℚ × ℚ × ℚ) (uv0 uv1 uv2 : ℚ × ℚ) {x y : ℕ} (hx : x < ow) :
    ∀ (L : List (ℕ × ℕ)) (s : RasterState), (∀ q ∈ L, q.2 < ow) → L.Nodup →
      (y, x) ∈ L →
      (L.foldl (rasterStep sample le ga ow v0 v1 v2 uv0 uv1 uv2) s).pix x y =
        (rasterStep sample le ga ow v0 v1 v2 uv0 uv1 uv2 s (y, x)).pix x y ∧
      (L.foldl (rasterStep sample le ga ow v0 v1 v2 uv0 uv1 uv2) s).depth (y * ow + x) =
        (rasterStep sample le ga ow v0 v1 v2 uv0 uv1 uv2 s (y, x)).depth (y * ow + x) := by
  intro L
  induction L with
  | nil => intro s _ _ h; cases h
  | cons q tl ih =>
    intro s hL hnd hmem
    by_cases hq : q = (y, x)
    · subst hq
      have hnotm : (y, x) ∉ tl := (List.nodup_cons.mp hnd).1
      exact foldl_rasterStep_not_mem sample le ga ow v0 v1 v2 uv0 uv1 uv2 hx tl _
        (fun r hr => hL r (List.mem_cons_of_mem _ hr)) hnotm
    · have hmem' : (y, x) ∈ tl := by
        rcases List.mem_cons.mp hmem with h | h
        · exact absurd h.symm hq
        · exact h
      have hqlt : q.2 < ow := hL q (List.mem_cons_self q tl)
      have hstep := rasterStep_ne sample le ga ow v0 v1 v2 uv0 uv1 uv2 hx hqlt hq s
      have ihres := ih (rasterStep sample le ga ow v0 v1 v2 uv0 uv1 uv2 s q)
        (fun r hr => hL r (List.mem_cons_of_mem _ hr)) (List.nodup_cons.mp hnd).2 hmem'
      have hcongr := rasterStep_congr_at sample le ga ow v0 v1 v2 uv0 uv1 uv2
        hstep.1 hstep.2
      exact ⟨ihres.1.trans hcongr.1, ihres.2.trans hcongr.2⟩

lemma renderTriangleTinted_at (width height : ℕ) (hw : 0 < width) (hh : 0 < height)
    (v0 v1 v2 : ℚ × ℚ × ℚ) (uv0 uv1 uv2 : ℚ × ℚ) (sample : ℚ → ℚ → Rgba) (le : Bool)
    (ga : ℕ → ℕ) (s : RasterState) {x y : ℕ}
    (hmem : (y, x) ∈ scanPairs width height v0.1 v1.1 v2.1 v0.2.1 v1.2.1 v2.2.1) :
    (renderTriangleTinted width height width [v0, v1, v2] [uv0, uv1, uv2]
        sample le ga s).pix x y =
      (rasterStep sample le ga width v0 v1 v2 uv0 uv1 uv2 s (y, x)).pix x y ∧
    (renderTriangleTinted width height width [v0, v1, v2] [uv0, uv1, uv2]
        sample le ga s).depth (y * width + x) =
      (rasterStep sample le ga width v0 v1 v2 uv0 uv1 uv2 s (y, x)).depth (y * width + x) := by
  have hx : x < width := (scanPairs_bounds hw hh hmem).1
  exact foldl_rasterStep_mem sample le ga width v0 v1 v2 uv0 uv1 uv2 hx _ s
    (fun q hq => (scanPairs_bounds hw hh hq).1)
    (nodup_scanPairs width height v0.1 v1.1 v2.1 v0.2.1 v1.2.1 v2.2.1) hmem

/-- C10: for every triangle, image dimensions `width × height` with
`width, height > 0`, and `output_width = width`, every pixel coordinate the
scan window of `render_triangle_tinted` visits satisfies `x < width` and
`y < height`, and its flat depth-buffer index `y * output_width + x` is below
`width * height` (the buffer length); moreover the function never touches the
image or the depth buffer outside the window. -/
theorem claim_C10_raster_bounds (width height : ℕ) (hw : 0 < width) (hh : 0 < height)
    (v0 v1 v2 : ℚ × ℚ × ℚ) (uv0 uv1 uv2 : ℚ × ℚ) (sample : ℚ → ℚ → Rgba)
    (le : Bool) (ga : ℕ → ℕ) :
    (∀ p ∈ scanPairs width height v0.1 v1.1 v2.1 v0.2.1 v1.2.1 v2.2.1,
       p.2 < width ∧ p.1 < height ∧ p.1 * width + p.2 < width * height) ∧
    (∀ (s : RasterState) (x y : ℕ), x < width →
       (y, x) ∉ scanPairs width height v0.1 v1.1 v2.1 v0.2.1 v1.2.1 v2.2.1 →
       (renderTriangleTinted width height width [v0, v1, v2] [uv0, uv1, uv2]
           sample le ga s).pix x y = s.pix x y ∧
       (renderTriangleTinted width height width [v0, v1, v2] [uv0, uv1, uv2]
           sample le ga s).depth (y * width + x) = s.depth (y * width + x)) := by
  constructor
  · exact fun p hp => scanPairs_bounds hw hh hp
  · intro s x y hx hmem
    exact foldl_rasterStep_not_mem sample le ga width v0 v1 v2 uv0 uv1 uv2 hx _ s
      (fun q hq => (scanPairs_bounds hw hh hq).1) hmem

/-- C9: at a pixel of the scan window that is covered by the triangle and
passes the depth test, a fragment with alpha > 0 (any positive alpha, no
blending) completely replaces the stored colour and writes its interpolated
depth; a fragment with alpha exactly 0 leaves both the colour and the depth
buffer unchanged at that pixel. -/
theorem claim_C9_no_alpha_blending (width height : ℕ) (hw : 0 < width) (hh : 0 < height)
    (v0 v1 v2 : ℚ × ℚ × ℚ) (uv0 uv1 uv2 : ℚ × ℚ) (sample : ℚ → ℚ → Rgba)
    (le : Bool) (ga : ℕ → ℕ) (s : RasterState) (x y : ℕ)
    (hmem : (y, x) ∈ scanPairs width height v0.1 v1.1 v2.1 v0.2.1 v1.2.1 v2.2.1)
    (hcov : pixelCovered v0 v1 v2 x y)
    (hpass : pixelDepth v0 v1 v2 x y < s.depth (y * width + x) - DEPTH_BIAS) :
    (0 < (pixelColor sample le ga v0 v1 v2 uv0 uv1 uv2 x y).a →
      (renderTriangleTinted width height width [v0, v1, v2] [uv0, uv1, uv2]
          sample le ga s).pix x y = pixelColor sample le ga v0 v1 v2 uv0 uv1 uv2 x y ∧
      (renderTriangleTinted width height width [v0, v1, v2] [uv0, uv1, uv2]
          sample le ga s).depth (y * width + x) = pixelDepth v0 v1 v2 x y) ∧
    ((pixelColor sample le ga v0 v1 v2 uv0 uv1 uv2 x y).a = 0 →
      (renderTriangleTinted width height width [v0, v1, v2] [uv0, uv1, uv2]
          sample le ga s).pix x y = s.pix x y ∧
      (renderTriangleTinted width height width [v0, v1, v2] [uv0, uv1, uv2]
          sample le ga s).depth (y * width + x) = s.depth (y * width + x)) := by
  have h := renderTriangleTinted_at width height hw hh v0 v1 v2 uv0 uv1 uv2
    sample le ga s hmem
  rw [h.1, h.2, rasterStep_apply, if_pos hcov, if_pos hpass]
  constructor
  · intro ha
    rw [if_pos ha]
    exact ⟨by simp, by simp⟩
  · intro ha
    rw [if_neg (by omega)]
    exact ⟨rfl, rfl⟩

/-- C1 (amended): two triangles overlapping at a covered pixel, both with
positive sampled alpha there, rendered into the fresh buffers in either
order, give the nearer triangle's fragment colour at that pixel — provided
the two interpolated depths differ by more than `DEPTH_BIAS` (triangle `a` is
the nearer one); and a fragment is rejected (both buffers unchanged) whenever
its interpolated depth is not smaller than the stored depth by more than
`DEPTH_BIAS`. -/
theorem claim_C1_amended_depth_order (width height : ℕ) (hw : 0 < width) (hh : 0 < height)
    (a0 a1 a2 b0 b1 b2 : ℚ × ℚ × ℚ) (uvA0 uvA1 uvA2 uvB0 uvB1 uvB2 : ℚ × ℚ)
    (sA sB : ℚ → ℚ → Rgba) (le : Bool) (ga : ℕ → ℕ) (x y : ℕ)
    (hmA : (y, x) ∈ scanPairs width height a0.1 a1.1 a2.1 a0.2.1 a1.2.1 a2.2.1)
    (hmB : (y, x) ∈ scanPairs width height b0.1 b1.1 b2.1 b0.2.1 b1.2.1 b2.2.1)
    (hcA : pixelCovered a0 a1 a2 x y) (hcB : pixelCovered b0 b1 b2 x y)
    (haA : 0 < (pixelColor sA le ga a0 a1 a2 uvA0 uvA1 uvA2 x y).a)
    (haB : 0 < (pixelColor sB le ga b0 b1 b2 uvB0 uvB1 uvB2 x y).a)
    (hnear : pixelDepth a0 a1 a2 x y < pixelDepth b0 b1 b2 x y - DEPTH_BIAS)
    (hfar : pixelDepth b0 b1 b2 x y < F32_MAX - DEPTH_BIAS) :
    (renderTriangleTinted width height width [a0, a1, a2] [uvA0, uvA1, uvA2] sA le ga
        (renderTriangleTinted width height width [b0, b1, b2] [uvB0, uvB1, uvB2] sB le ga
          initialRasterState)).pix x y =
      pixelColor sA le ga a0 a1 a2 uvA0 uvA1 uvA2 x y ∧
    (renderTriangleTinted width height width [b0, b1, b2] [uvB0, uvB1, uvB2] sB le ga
        (renderTriangleTinted width height width [a0, a1, a2] [uvA0, uvA1, uvA2] sA le ga
          initialRasterState)).pix x y =
      pixelColor sA le ga a0 a1 a2 uvA0 uvA1 uvA2 x y ∧
    (∀ t : RasterState, t.depth (y * width + x) - DEPTH_BIAS ≤ pixelDepth a0 a1 a2 x y →
      (renderTriangleTinted width height width [a0, a1, a2] [uvA0, uvA1, uvA2]
          sA le ga t).pix x y = t.pix x y ∧
      (renderTriangleTinted width height width [a0, a1, a2] [uvA0, uvA1, uvA2]
          sA le ga t).depth (y * width + x) = t.depth (y * width + x)) := by
  have hbias : (0 : ℚ) < DEPTH_BIAS := by norm_num [DEPTH_BIAS]
  -- effect of rendering B into the fresh buffers
  have hB0 := renderTriangleTinted_at width height hw hh b0 b1 b2 uvB0 uvB1 uvB2
    sB le ga initialRasterState hmB
  have hBpass : pixelDepth b0 b1 b2 x y <
      initialRasterState.depth (y * width + x) - DEPTH_BIAS := hfar
  rw [rasterStep_apply, if_pos hcB, if_pos hBpass, if_pos haB] at hB0
  -- effect of rendering A into the fresh buffers
  have hA0 := renderTriangleTinted_at width height hw hh a0 a1 a2 uvA0 uvA1 uvA2
    sA le ga initialRasterState hmA
  have hApass : pixelDepth a0 a1 a2 x y <
      initialRasterState.depth (y * width + x) - DEPTH_BIAS := by
    have : pixelDepth b0 b1 b2 x y < F32_MAX - DEPTH_BIAS := hfar
    show pixelDepth a0 a1 a2 x y < F32_MAX - DEPTH_BIAS
    linarith
  rw [rasterStep_apply, if_pos hcA, if_pos hApass, if_pos haA] at hA0
  refine ⟨?_, ?_, ?_⟩
  · -- B first, then A: A overwrites because it is closer by more than the bias
    have hA := renderTriangleTinted_at width height hw hh a0 a1 a2 uvA0 uvA1 uvA2
      sA le ga (renderTriangleTinted width height width [b0, b1, b2]
        [uvB0, uvB1, uvB2] sB le ga initialRasterState) hmA
    have hdepthB : (renderTriangleTinted width height width [b0, b1, b2]
        [uvB0, uvB1, uvB2] sB le ga initialRasterState).depth (y * width + x) =
        pixelDepth b0 b1 b2 x y := by
      rw [hB0.2]; simp
    have hApass2 : pixelDepth a0 a1 a2 x y <
        (renderTriangleTinted width height width [b0, b1, b2] [uvB0, uvB1, uvB2]
          sB le ga initialRasterState).depth (y * width + x) - DEPTH_BIAS := by
      rw [hdepthB]; exact hnear
    rw [hA.1, rasterStep_apply, if_pos hcA, if_pos hApass2, if_pos haA]
    simp
  · -- A first, then B: B is rejected by the biased depth test
    have hB := renderTriangleTinted_at width height hw hh b0 b1 b2 uvB0 uvB1 uvB2
      sB le ga (renderTriangleTinted width height width [a0, a1, a2]
        [uvA0, uvA1, uvA2] sA le ga initialRasterState) hmB
    have hdepthA : (renderTriangleTinted width height width [a0, a1, a2]
        [uvA0, uvA1, uvA2] sA le ga initialRasterState).depth (y * width + x) =
        pixelDepth a0 a1 a2 x y := by
      rw [hA0.2]; simp
    have hBfail : ¬ pixelDepth b0 b1 b2 x y <
        (renderTriangleTinted width height width [a0, a1, a2] [uvA0, uvA1, uvA2]
          sA le ga initialRasterState).depth (y * width + x) - DEPTH_BIAS := by
      rw [hdepthA]; linarith
    rw [hB.1, rasterStep_apply, if_pos hcB, if_neg hBfail, hA0.1]
    simp
  · -- rejection rule: not closer by more than the bias ⇒ no write
    intro t ht
    have hA := renderTriangleTinted_at width height hw hh a0 a1 a2 uvA0 uvA1 uvA2
      sA le ga t hmA
    have hfail : ¬ pixelDepth a0 a1 a2 x y < t.depth (y * width + x) - DEPTH_BIAS := by
      linarith
    rw [hA.1, hA.2, rasterStep_apply, if_pos hcA, if_neg hfail]
    exact ⟨rfl, rfl⟩

/-! ## Concrete 1×1-image scenarios for the rasterizer claims -/

/-- A screen triangle covering the pixel centre (0.5, 0.5) of a 1×1 image,
with constant view-space depth 5 (the nearer triangle). -/
def triNear : List (ℚ × ℚ × ℚ) := [(0, 0, 5), (2, 0, 5), (0, 2, 5)]

/-- The same screen footprint at depth 5 + 1/2000: farther than `triNear`,
but by less than `DEPTH_BIAS = 1/1000`. -/
def triWithin : List (ℚ × ℚ × ℚ) :=
  [(0, 0, 5 + 1 / 2000), (2, 0, 5 + 1 / 2000), (0, 2, 5 + 1 / 2000)]

/-- The same screen footprint at depth 6: farther by more than `DEPTH_BIAS`. -/
def triFar : List (ℚ × ℚ × ℚ) := [(0, 0, 6), (2, 0, 6), (0, 2, 6)]

/-- All-zero UVs for the scenarios. -/
def uvZero : List (ℚ × ℚ) := [(0, 0), (0, 0), (0, 0)]

/-- An opaque red sampler. -/
def sampleRed : ℚ → ℚ → Rgba := fun _ _ => ⟨255, 0, 0, 255⟩

/-- An opaque blue sampler. -/
def sampleBlue : ℚ → ℚ → Rgba := fun _ _ => ⟨0, 0, 255, 255⟩

lemma scanPairs_unit : scanPairs 1 1 0 2 0 0 0 2 = [(0, 0)] := by
  norm_num [scanPairs, f32AsU32, rangeIncl, List.range_succ]

lemma mem_scanPairs_unit : ((0 : ℕ), (0 : ℕ)) ∈ scanPairs 1 1 0 2 0 0 0 2 := by
  rw [scanPairs_unit]
  exact List.mem_singleton.mpr rfl

lemma pixelBary_unit (z0 z1 z2 : ℚ) :
    pixelBary (0, 0, z0) (2, 0, z1) (0, 2, z2) 0 0 = (1 / 4, 1 / 4, 1 / 2) := by
  norm_num [pixelBary, barycentricCoords, BARY_EPS]

lemma pixelCovered_unit (z0 z1 z2 : ℚ) :
    pixelCovered (0, 0, z0) (2, 0, z1) (0, 2, z2) 0 0 := by
  unfold pixelCovered
  rw [pixelBary_unit]
  norm_num

lemma pixelDepth_const (c : ℚ) :
    pixelDepth (0, 0, c) (2, 0, c) (0, 2, c) 0 0 = c := by
  unfold pixelDepth
  rw [pixelBary_unit]
  ring

lemma pixelColor_uvZero (sample : ℚ → ℚ → Rgba) (ga : ℕ → ℕ)
    (v0 v1 v2 : ℚ × ℚ × ℚ) (x y : ℕ) :
    pixelColor sample false ga v0 v1 v2 (0, 0) (0, 0) (0, 0) x y = sample 0 0 := by
  simp [pixelColor, pixelTexUV, litSample]

/-- Rendering a constant-depth triangle over the single pixel of a 1×1 image:
the depth test and the alpha guard decide between the fragment and the
previous contents. -/
lemma render_unit_at (c : ℚ) (sample : ℚ → ℚ → Rgba) (s : RasterState) :
    (renderTriangleTinted 1 1 1 [(0, 0, c), (2, 0, c), (0, 2, c)] uvZero
        sample false id s).pix 0 0 =
      (if c < s.depth 0 - DEPTH_BIAS then
        if 0 < (sample 0 0).a then sample 0 0 else s.pix 0 0
       else s.pix 0 0) ∧
    (renderTriangleTinted 1 1 1 [(0, 0, c), (2, 0, c), (0, 2, c)] uvZero
        sample false id s).depth 0 =
      (if c < s.depth 0 - DEPTH_BIAS then
        if 0 < (sample 0 0).a then c else s.depth 0
       else s.depth 0) := by
  have h := renderTriangleTinted_at 1 1 one_pos one_pos (0, 0, c) (2, 0, c) (0, 2, c)
    (0, 0) (0, 0) (0, 0) sample false id s mem_scanPairs_unit
  rw [rasterStep_apply, if_pos (pixelCovered_unit c c c), pixelDepth_const,
    pixelColor_uvZero] at h
  have hidx : (0 : ℕ) * 1 + 0 = 0 := rfl
  rw [hidx] at h
  simp only [uvZero]
  constructor
  · rw [h.1]
    by_cases hdep : c < s.depth 0 - DEPTH_BIAS
    · by_cases ha : 0 < (sample 0 0).a
      · simp [hdep, ha]
      · simp [hdep, ha]
    · simp [hdep]
  · rw [h.2]
    by_cases hdep : c < s.depth 0 - DEPTH_BIAS
    · by_cases ha : 0 < (sample 0 0).a
      · simp [hdep, ha]
      · simp [hdep, ha]
    · simp [hdep]

/-- C1 (counterexample): the two triangles `triNear` (depth 5, red) and
`triWithin` (depth 5 + 1/2000, blue) are opaque, overlap the pixel (0, 0) of
a 1×1 image, and sit at different view-space depths; yet the two draw orders
give different final colours there, and drawing the farther one first leaves
the farther one's colour — so the claimed draw-order independence fails when
the depths differ by no more than `DEPTH_BIAS`. -/
theorem claim_C1_counterexample :
    (renderTriangleTinted 1 1 1 triNear uvZero sampleRed false id
        (renderTriangleTinted 1 1 1 triWithin uvZero sampleBlue false id
          initialRasterState)).pix 0 0 = ⟨0, 0, 255, 255⟩ ∧
    (renderTriangleTinted 1 1 1 triWithin uvZero sampleBlue false id
        (renderTriangleTinted 1 1 1 triNear uvZero sampleRed false id
          initialRasterState)).pix 0 0 = ⟨255, 0, 0, 255⟩ := by
  simp only [triNear, triWithin]
  have hmaxB : (5 + 1 / 2000 : ℚ) < initialRasterState.depth 0 - DEPTH_BIAS := by
    norm_num [initialRasterState, F32_MAX, DEPTH_BIAS]
  have hmaxA : (5 : ℚ) < initialRasterState.depth 0 - DEPTH_BIAS := by
    norm_num [initialRasterState, F32_MAX, DEPTH_BIAS]
  have haB : 0 < (sampleBlue 0 0).a := by norm_num [sampleBlue]
  have haA : 0 < (sampleRed 0 0).a := by norm_num [sampleRed]
  have hBfirst := render_unit_at (5 + 1 / 2000) sampleBlue initialRasterState
  rw [if_pos hmaxB, if_pos hmaxB, if_pos haB, if_pos haB] at hBfirst
  have hAfirst := render_unit_at 5 sampleRed initialRasterState
  rw [if_pos hmaxA, if_pos hmaxA, if_pos haA, if_pos haA] at hAfirst
  constructor
  · -- far (blue) first, then near (red): red is rejected by the bias
    have hA := render_unit_at 5 sampleRed
      (renderTriangleTinted 1 1 1 [(0, 0, 5 + 1 / 2000), (2, 0, 5 + 1 / 2000),
        (0, 2, 5 + 1 / 2000)] uvZero sampleBlue false id initialRasterState)
    rw [hBfirst.2] at hA
    rw [if_neg (by norm_num [DEPTH_BIAS])] at hA
    rw [hA.1, hBfirst.1]
    norm_num [sampleBlue]
  · -- near (red) first, then far (blue): blue is rejected by the depth test
    have hB := render_unit_at (5 + 1 / 2000) sampleBlue
      (renderTriangleTinted 1 1 1 [(0, 0, 5), (2, 0, 5), (0, 2, 5)] uvZero
        sampleRed false id initialRasterState)
    rw [hAfirst.2] at hB
    rw [if_neg (by norm_num [DEPTH_BIAS])] at hB
    rw [hB.1, hAfirst.1]
    norm_num [sampleRed]

/-- Witness for the amended C1 at the concrete scenario: nearer red triangle
(depth 5) and farther blue triangle (depth 6), both orders end red. -/
theorem claim_C1_amended_witness :
    (renderTriangleTinted 1 1 1 triNear uvZero sampleRed false id
        (renderTriangleTinted 1 1 1 triFar uvZero sampleBlue false id
          initialRasterState)).pix 0 0 = ⟨255, 0, 0, 255⟩ ∧
    (renderTriangleTinted 1 1 1 triFar uvZero sampleBlue false id
        (renderTriangleTinted 1 1 1 triNear uvZero sampleRed false id
          initialRasterState)).pix 0 0 = ⟨255, 0, 0, 255⟩ := by
  simp only [triNear, triFar]
  have h := claim_C1_amended_depth_order 1 1 one_pos one_pos
    (0, 0, 5) (2, 0, 5) (0, 2, 5) (0, 0, 6) (2, 0, 6) (0, 2, 6)
    (0, 0) (0, 0) (0, 0) (0, 0) (0, 0) (0, 0) sampleRed sampleBlue false id 0 0
    mem_scanPairs_unit mem_scanPairs_unit
    (pixelCovered_unit 5 5 5) (pixelCovered_unit 6 6 6)
    (by rw [pixelColor_uvZero]; norm_num [sampleRed])
    (by rw [pixelColor_uvZero]; norm_num [sampleBlue])
    (by rw [pixelDepth_const, pixelDepth_const]; norm_num [DEPTH_BIAS])
    (by rw [pixelDepth_const]; norm_num [F32_MAX, DEPTH_BIAS])
  refine ⟨h.1.trans ?_, h.2.1.trans ?_⟩ <;>
    (rw [pixelColor_uvZero]; norm_num [sampleRed])

/-- Witness for C9 at the concrete scenario: the opaque red fragment at
depth 5 replaces the fresh buffers' contents at pixel (0, 0). -/
theorem claim_C9_witness :
    (renderTriangleTinted 1 1 1 triNear uvZero sampleRed false id
        initialRasterState).pix 0 0 = ⟨255, 0, 0, 255⟩ ∧
    (renderTriangleTinted 1 1 1 triNear uvZero sampleRed false id
        initialRasterState).depth 0 = 5 := by
  simp only [triNear]
  have h := claim_C9_no_alpha_blending 1 1 one_pos one_pos
    (0, 0, 5) (2, 0, 5) (0, 2, 5) (0, 0) (0, 0) (0, 0) sampleRed false id
    initialRasterState 0 0 mem_scanPairs_unit (pixelCovered_unit 5 5 5)
    (by rw [pixelDepth_const]; norm_num [initialRasterState, F32_MAX, DEPTH_BIAS])
  have h2 := h.1 (by rw [pixelColor_uvZero]; norm_num [sampleRed])
  refine ⟨h2.1.trans ?_, h2.2.trans (pixelDepth_const 5)⟩
  rw [pixelColor_uvZero]
  norm_num [sampleRed]

/-- Witness for C10 at the concrete scenario: the single window pixel of the
1×1 image is in bounds for the image and the depth buffer. -/
theorem claim_C10_witness :
    (0 : ℕ) < 1 ∧ (0 : ℕ) < 1 ∧ (0 : ℕ) * 1 + 0 < 1 * 1 :=
  (claim_C10_raster_bounds 1 1 one_pos one_pos (0, 0, 5) (2, 0, 5) (0, 2, 5)
    (0, 0) (0, 0) (0, 0) sampleRed false id).1 (0, 0) mem_scanPairs_unit

/-! ## C3: totality of the clip intersection parameter -/

/-- C3: `compute_intersection_t` is total — for every pair of clip-space
vertices and every frustum plane it returns `some t` (never a rejection);
when `|d1 - d2| ≥ 1e-10` the value is `d1/(d1-d2)` clamped to `[0, 1]`, and
when `|d1 - d2| < 1e-10` (near-parallel edge) it is exactly `1/2`. -/
theorem claim_C3_intersection_total (v1 v2 : ClipVertex) (plane : ClipPlane) :
    ∃ t : ℚ, computeIntersectionT v1 v2 plane = some t ∧
      (CLIP_EPS ≤ |signedDistance v1.clipPos plane - signedDistance v2.clipPos plane| →
        t = clampQ (signedDistance v1.clipPos plane /
          (signedDistance v1.clipPos plane - signedDistance v2.clipPos plane)) 0 1) ∧
      (|signedDistance v1.clipPos plane - signedDistance v2.clipPos plane| < CLIP_EPS →
        t = 1 / 2) := by
  by_cases h : |signedDistance v1.clipPos plane - signedDistance v2.clipPos plane| < CLIP_EPS
  · refine ⟨1 / 2, ?_, fun hle => absurd h (not_lt.mpr hle), fun _ => rfl⟩
    simp only [computeIntersectionT]
    rw [if_pos h]
  · refine ⟨clampQ (signedDistance v1.clipPos plane /
        (signedDistance v1.clipPos plane - signedDistance v2.clipPos plane)) 0 1,
      ?_, fun _ => rfl, fun hlt => absurd hlt h⟩
    simp only [computeIntersectionT]
    rw [if_neg h]

/-- A clip vertex inside the right plane (`w - x = 1`). -/
def cvC3a : ClipVertex := ⟨⟨0, 0, 0⟩, (0, 0), ⟨0, 0, 0, 1⟩, ⟨0, 0, 0⟩⟩

/-- A clip vertex outside the right plane (`w - x = -2`). -/
def cvC3b : ClipVertex := ⟨⟨1, 0, 0⟩, (1, 0), ⟨3, 0, 0, 1⟩, ⟨0, 0, 0⟩⟩

theorem claim_C3_witness :
    computeIntersectionT cvC3a cvC3b ClipPlane.right = some (1 / 3) := by
  obtain ⟨t, ht, hmain, -⟩ := claim_C3_intersection_total cvC3a cvC3b ClipPlane.right
  have h1 : CLIP_EPS ≤ |signedDistance cvC3a.clipPos ClipPlane.right -
      signedDistance cvC3b.clipPos ClipPlane.right| := by
    norm_num [CLIP_EPS, signedDistance, cvC3a, cvC3b]
  rw [ht, hmain h1]
  norm_num [clampQ, signedDistance, cvC3a, cvC3b]

/-! ## C2: pose application in scene-graph construction -/

/-- C2: when the pose has an entry for the node's name carrying both deltas,
the resolved local position is the stored position plus the position delta
(componentwise), the resolved local orientation is the Hamilton product of
the stored orientation (left) with the orientation delta (right), and the
node's world transform is the parent transform composed with the local
transform built from that position/orientation at unit scale. -/
theorem claim_C2_pose_application (node : Node) (parentTransform : Mat4)
    (spacing : ℚ) (p : AnimationPose) (entry : NodePose) (dp : Vector3) (dq : Quaternion)
    (hentry : p node.name = some entry)
    (hpos : entry.positionDelta = some dp)
    (hori : entry.orientationDelta = some dq) :
    resolveWorldTransform node parentTransform spacing (some p) =
      multiplyTransforms parentTransform
        (buildTransformWithOffset
          ⟨node.position.x + dp.x, node.position.y + dp.y, node.position.z + dp.z⟩
          ⟨node.orientation.w * dq.x + node.orientation.x * dq.w +
              node.orientation.y * dq.z - node.orientation.z * dq.y,
            node.orientation.w * dq.y - node.orientation.x * dq.z +
              node.orientation.y * dq.w + node.orientation.z * dq.x,
            node.orientation.w * dq.z + node.orientation.x * dq.y -
              node.orientation.y * dq.x + node.orientation.z * dq.w,
            node.orientation.w * dq.w - node.orientation.x * dq.x -
              node.orientation.y * dq.y - node.orientation.z * dq.z⟩
          ⟨1, 1, 1⟩ ⟨0, 0, 0⟩) := by
  simp only [resolveWorldTransform, hentry, hpos, hori, multiplyQuaternions,
    Option.isNone_some, Bool.false_eq_true, if_false]

/-- Concrete pose data: deltas `(4, 5, 6)` and the identity quaternion. -/
def testPoseEntry : NodePose := ⟨some ⟨4, 5, 6⟩, some ⟨0, 0, 0, 1⟩⟩

/-- A pose mapping every node name to `testPoseEntry`. -/
def testPose : AnimationPose := fun _ => some testPoseEntry

/-- A node at position `(1, 2, 3)` with identity orientation. -/
def testNode : Node := ⟨"0", "Torso", ⟨1, 2, 3⟩, ⟨0, 0, 0, 1⟩, none⟩

theorem claim_C2_witness :
    resolveWorldTransform testNode Mat4.identity 0 (some testPose) =
      multiplyTransforms Mat4.identity
        (buildTransformWithOffset ⟨5, 7, 9⟩ ⟨0, 0, 0, 1⟩ ⟨1, 1, 1⟩ ⟨0, 0, 0⟩) := by
  have h := claim_C2_pose_application testNode Mat4.identity 0 testPose testPoseEntry
    ⟨4, 5, 6⟩ ⟨0, 0, 0, 1⟩ rfl rfl rfl
  rw [h]
  norm_num [testNode]

/-! ## C5: tint classification and pass-through -/

lemma floor_clamp_round {N : ℕ} (hN : 0 < N) {L : ℕ} (hL : L ≤ 255) :
    (⌊clampQ ((L : ℚ) / 255 * ((N : ℚ) - 1) + 1 / 2) 0 ((N : ℚ) - 1)⌋).toNat ⊓ (N - 1) =
      (round ((L : ℚ) / 255 * ((N : ℚ) - 1))).toNat ⊓ (N - 1) := by
  set x : ℚ := (L : ℚ) / 255 * ((N : ℚ) - 1) with hx
  have hN1 : (0 : ℚ) ≤ (N : ℚ) - 1 := by
    have h : (1 : ℚ) ≤ (N : ℚ) := by exact_mod_cast hN
    linarith
  have hx1 : x ≤ (N : ℚ) - 1 := by
    have hdl : (L : ℚ) / 255 ≤ 1 := by
      rw [div_le_one (by norm_num : (0 : ℚ) < 255)]
      exact_mod_cast hL
    calc x ≤ 1 * ((N : ℚ) - 1) := mul_le_mul_of_nonneg_right hdl hN1
      _ = (N : ℚ) - 1 := one_mul _
  have hx0 : 0 ≤ x := by
    apply mul_nonneg _ hN1
    positivity
  rw [clampQ, max_eq_left (by linarith : (0 : ℚ) ≤ x + 1 / 2)]
  by_cases hc : x + 1 / 2 ≤ (N : ℚ) - 1
  · rw [min_eq_left hc, round_eq]
  · rw [min_eq_right (le_of_not_le hc)]
    have hfloor : ⌊(N : ℚ) - 1⌋ = (N : ℤ) - 1 := by
      rw [show ((N : ℚ) - 1) = (((N : ℤ) - 1 : ℤ) : ℚ) by push_cast; ring,
        Int.floor_intCast]
    have hround2 : (N : ℤ) - 1 ≤ round x := by
      rw [round_eq]
      apply Int.le_floor.mpr
      push_cast
      linarith [le_of_not_le hc]
    have htoNat1 : (⌊(N : ℚ) - 1⌋).toNat = N - 1 := by rw [hfloor]; omega
    have htoNat2 : N - 1 ≤ (round x).toNat := by omega
    rw [htoNat1, min_self, min_eq_right htoNat2]

lemma lookupU8_plain (g : TintGradient) (hinv : g.inverted = false)
    (hbr : g.brightness = 1) (hN : 0 < g.pixels.length) {L : ℕ} (hL : L ≤ 255) :
    g.lookupU8 L = g.pixels.getD
      ((round ((L : ℚ) / 255 * ((g.pixels.length : ℚ) - 1))).toNat ⊓
        (g.pixels.length - 1)) ⟨0, 0, 0, 0⟩ := by
  have hne : g.pixels.isEmpty = false := by
    cases hp : g.pixels with
    | nil => rw [hp] at hN; exact absurd hN (by simp)
    | cons hd tl => rfl
  simp only [TintGradient.lookupU8, TintGradient.lookup, hinv, hbr, hne,
    Bool.false_eq_true, if_false, ne_eq, not_true_eq_false]
  rw [floor_clamp_round hN hL]

/-- C5: `apply_tint` returns the pixel unchanged when alpha is 0 or the
max−min channel deviation exceeds 1 (hence also byte-for-byte for any
deviation > 8); for a greyscale pixel (deviation ≤ 1) and a plain gradient
(no inversion, unit brightness, nonempty table) it returns the gradient entry
at index `round(luminance/255 × (N−1))` clamped to `[0, N−1]` — luminance
being the integer average of R, G, B — with the source alpha substituted; and
a pure grey pixel tinted through the identity gradient is returned
unchanged. -/
theorem claim_C5_apply_tint :
    (∀ (p : Rgba) (g : TintGradient),
      (p.a = 0 → applyTint p g = p) ∧
      (1 < max p.r (max p.g p.b) - min p.r (min p.g p.b) → applyTint p g = p) ∧
      (g.inverted = false → g.brightness = 1 → 0 < g.pixels.length →
        max p.r (max p.g p.b) - min p.r (min p.g p.b) ≤ 1 →
        p.r ≤ 255 → p.g ≤ 255 → p.b ≤ 255 → p.a ≠ 0 →
        applyTint p g =
          { g.pixels.getD
              ((round ((((p.r + p.g + p.b) / 3 : ℕ) : ℚ) / 255 *
                  ((g.pixels.length : ℚ) - 1))).toNat ⊓ (g.pixels.length - 1))
              ⟨0, 0, 0, 0⟩ with
            a := p.a })) ∧
    (∀ v ≤ 255, ∀ a2 : ℕ, applyTint ⟨v, v, v, a2⟩ identityGradient = ⟨v, v, v, a2⟩) := by
  have hmain : ∀ (p : Rgba) (g : TintGradient),
      (p.a = 0 → applyTint p g = p) ∧
      (1 < max p.r (max p.g p.b) - min p.r (min p.g p.b) → applyTint p g = p) ∧
      (g.inverted = false → g.brightness = 1 → 0 < g.pixels.length →
        max p.r (max p.g p.b) - min p.r (min p.g p.b) ≤ 1 →
        p.r ≤ 255 → p.g ≤ 255 → p.b ≤ 255 → p.a ≠ 0 →
        applyTint p g =
          { g.pixels.getD
              ((round ((((p.r + p.g + p.b) / 3 : ℕ) : ℚ) / 255 *
                  ((g.pixels.length : ℚ) - 1))).toNat ⊓ (g.pixels.length - 1))
              ⟨0, 0, 0, 0⟩ with
            a := p.a }) := by
    intro p g
    refine ⟨fun ha => ?_, fun hdev => ?_, ?_⟩
    · unfold applyTint
      rw [if_pos ha]
    · unfold applyTint
      by_cases ha : p.a = 0
      · rw [if_pos ha]
      · rw [if_neg ha, if_neg (by omega)]
    · intro hinv hbr hN hdev hr hg hb ha
      have hlum : (p.r + p.g + p.b) / 3 ≤ 255 := by omega
      simp only [applyTint, if_neg ha, if_pos hdev,
        lookupU8_plain g hinv hbr hN hlum]
  refine ⟨hmain, fun v hv a2 => ?_⟩
  have hN : 0 < identityGradient.pixels.length := by
    simp [identityGradient]
  by_cases ha : a2 = 0
  · exact ha ▸ ((hmain ⟨v, v, v, 0⟩ identityGradient).1 rfl)
  · have h := (hmain ⟨v, v, v, a2⟩ identityGradient).2.2 rfl rfl hN
      (by show max v (max v v) - min v (min v v) ≤ 1; omega) hv hv hv ha
    rw [h]
    have hlen : identityGradient.pixels.length = 256 := by
      simp [identityGradient]
    have hlum : (v + v + v) / 3 = v := by omega
    have hround : (round ((v : ℚ) / 255 *
        ((identityGradient.pixels.length : ℚ) - 1))).toNat ⊓
          (identityGradient.pixels.length - 1) = v := by
      rw [hlen]
      have hv255 : ((v : ℚ) / 255 * ((256 : ℚ) - 1)) = (v : ℚ) := by
        rw [show ((256 : ℚ) - 1) = 255 by norm_num,
          div_mul_cancel₀ ((v : ℚ)) (by norm_num : (255 : ℚ) ≠ 0)]
      rw [show ((256 : ℕ) : ℚ) = (256 : ℚ) by norm_num, hv255, round_natCast,
        Int.toNat_natCast]
      omega
    have hget : identityGradient.pixels.getD v ⟨0, 0, 0, 0⟩ = ⟨v, v, v, 255⟩ := by
      have hvlt : v < identityGradient.pixels.length := by rw [hlen]; omega
      rw [List.getD_eq_getElem _ _ hvlt]
      simp [identityGradient]
    dsimp only
    rw [hlum, hround, hget]

theorem claim_C5_witness :
    applyTint ⟨7, 7, 7, 9⟩ identityGradient = ⟨7, 7, 7, 9⟩ ∧
    applyTint ⟨10, 30, 50, 9⟩ identityGradient = ⟨10, 30, 50, 9⟩ :=
  ⟨claim_C5_apply_tint.2 7 (by norm_num) 9,
   (claim_C5_apply_tint.1 ⟨10, 30, 50, 9⟩ identityGradient).2.1 (by norm_num)⟩

/-! ## C4: trivial cases of frustum clipping -/

lemma sh_all_inside (nf : Vector3 → Vector3) (p : ClipPlane) (u v w : ClipVertex)
    (hu : isInside u p = true) (hv : isInside v p = true) (hw : isInside w p = true) :
    sutherlandHodgmanClip nf [u, v, w] p = [v, w, u] := by
  unfold sutherlandHodgmanClip
  rw [if_neg (by norm_num)]
  rw [show List.range ([u, v, w].length) = [0, 1, 2] from rfl]
  simp only [List.flatMap_cons, List.flatMap_nil, List.append_nil]
  unfold shEmit
  norm_num [hu, hv, hw]

lemma clipAgainstPlanes_step (nf : Vector3 → Vector3) (ps : List ClipPlane)
    (pl : ClipPlane) (u v w : ClipVertex) (hu : isInside u pl = true)
    (hv : isInside v pl = true) (hw : isInside w pl = true) :
    clipAgainstPlanes nf (pl :: ps) [u, v, w] = clipAgainstPlanes nf ps [v, w, u] := by
  simp only [clipAgainstPlanes]
  rw [sh_all_inside nf pl u v w hu hv hw]
  norm_num

lemma clipAgainstPlanes_all_inside (nf : Vector3 → Vector3) (A B C : ClipVertex)
    (hA : ∀ pl, isInside A pl = true) (hB : ∀ pl, isInside B pl = true)
    (hC : ∀ pl, isInside C pl = true) :
    clipAgainstPlanes nf frustumPlanes [A, B, C] = some [A, B, C] := by
  rw [show frustumPlanes = [.near, .left, .right, .bottom, .top, .far] from rfl]
  rw [clipAgainstPlanes_step nf _ _ A B C (hA _) (hB _) (hC _),
    clipAgainstPlanes_step nf _ _ B C A (hB _) (hC _) (hA _),
    clipAgainstPlanes_step nf _ _ C A B (hC _) (hA _) (hB _),
    clipAgainstPlanes_step nf _ _ A B C (hA _) (hB _) (hC _),
    clipAgainstPlanes_step nf _ _ B C A (hB _) (hC _) (hA _),
    clipAgainstPlanes_step nf _ _ C A B (hC _) (hA _) (hB _)]
  rfl

lemma clip_all_inside (nf : Vector3 → Vector3) (face : Face) (vp : Mat4)
    (a b c : Vertex) (hface : face.vertices = [a, b, c])
    (hin : ∀ v ∈ [a, b, c], ∀ pl : ClipPlane,
      0 ≤ signedDistance (toClipVertex vp v).clipPos pl) :
    clipFaceToFrustum nf face vp =
      some [toClipVertex vp a, toClipVertex vp b, toClipVertex vp c] := by
  have hA : ∀ pl, isInside (toClipVertex vp a) pl = true :=
    fun pl => decide_eq_true (hin a (by simp) pl)
  have hB : ∀ pl, isInside (toClipVertex vp b) pl = true :=
    fun pl => decide_eq_true (hin b (by simp) pl)
  have hC : ∀ pl, isInside (toClipVertex vp c) pl = true :=
    fun pl => decide_eq_true (hin c (by simp) pl)
  unfold clipFaceToFrustum
  rw [hface]
  simp only [List.map_cons, List.map_nil]
  have hrej : isTriviallyRejected
      [toClipVertex vp a, toClipVertex vp b, toClipVertex vp c] = false := by
    unfold isTriviallyRejected
    rw [List.any_eq_false]
    intro pl hpl
    simp [hA pl, hB pl, hC pl]
  rw [hrej, if_neg (by simp)]
  exact clipAgainstPlanes_all_inside nf _ _ _ hA hB hC

/-- C4: a triangular face whose three transformed clip-space vertices all lie
inside every frustum plane (signed distance ≥ 0) is returned by
`clip_face_to_frustum` as `Some` of exactly the same 3 clip vertices — same
world positions, UVs and normals, in the same order; a face whose vertices
all have negative signed distance to a single plane is rejected as `None`. -/
theorem claim_C4_clip_trivial (nf : Vector3 → Vector3) (face : Face) (vp : Mat4)
    (a b c : Vertex) (hface : face.vertices = [a, b, c]) :
    ((∀ v ∈ [a, b, c], ∀ pl : ClipPlane,
        0 ≤ signedDistance (toClipVertex vp v).clipPos pl) →
      clipFaceToFrustum nf face vp =
        some [toClipVertex vp a, toClipVertex vp b, toClipVertex vp c]) ∧
    ((∃ pl : ClipPlane, ∀ v ∈ [a, b, c],
        signedDistance (toClipVertex vp v).clipPos pl < 0) →
      clipFaceToFrustum nf face vp = none) := by
  constructor
  · exact clip_all_inside nf face vp a b c hface
  · rintro ⟨pl, hout⟩
    unfold clipFaceToFrustum
    rw [hface]
    simp only [List.map_cons, List.map_nil]
    have hrej : isTriviallyRejected
        [toClipVertex vp a, toClipVertex vp b, toClipVertex vp c] = true := by
      unfold isTriviallyRejected
      rw [List.any_eq_true]
      refine ⟨pl, by cases pl <;> simp [frustumPlanes], ?_⟩
      rw [List.all_eq_true]
      intro cv hcv
      have hneg : ∀ u ∈ [a, b, c], (! isInside (toClipVertex vp u) pl) = true := by
        intro u hu
        simp [isInside, not_le.mpr (hout u hu)]
      simp only [List.mem_cons, List.not_mem_nil, or_false] at hcv
      rcases hcv with h | h | h <;> subst h
      · exact hneg a (by simp)
      · exact hneg b (by simp)
      · exact hneg c (by simp)
    rw [hrej, if_pos rfl]

/-- A triangle well inside the frustum under the identity view-projection. -/
def testVertexA : Vertex := ⟨⟨0, 0, -(1 / 2)⟩, ⟨0, 0, 1⟩, (0, 0)⟩

def testVertexB : Vertex := ⟨⟨1 / 2, 0, -(1 / 2)⟩, ⟨0, 0, 1⟩, (1, 0)⟩

def testVertexC : Vertex := ⟨⟨0, 1 / 2, -(1 / 2)⟩, ⟨0, 0, 1⟩, (0, 1)⟩

def testFace : Face := ⟨[testVertexA, testVertexB, testVertexC], "front"⟩

lemma testFace_all_inside : ∀ v ∈ [testVertexA, testVertexB, testVertexC],
    ∀ pl : ClipPlane, 0 ≤ signedDistance (toClipVertex Mat4.identity v).clipPos pl := by
  intro v hv pl
  simp only [List.mem_cons, List.not_mem_nil, or_false] at hv
  rcases hv with h | h | h <;> subst h <;> cases pl <;>
    norm_num [toClipVertex, signedDistance, Mat4.identity, Mat4.mulVec4,
      testVertexA, testVertexB, testVertexC]

theorem claim_C4_witness :
    clipFaceToFrustum id testFace Mat4.identity =
      some [toClipVertex Mat4.identity testVertexA,
        toClipVertex Mat4.identity testVertexB,
        toClipVertex Mat4.identity testVertexC] :=
  (claim_C4_clip_trivial id testFace Mat4.identity testVertexA testVertexB
    testVertexC rfl).1 testFace_all_inside

/-! ## C6 and C7: projection, depth metric and backface culling -/

lemma clipAgainstPlanes_length (nf : Vector3 → Vector3) :
    ∀ (ps : List ClipPlane) (vs out : List ClipVertex),
      clipAgainstPlanes nf ps vs = some out → 3 ≤ out.length ∨ (ps = [] ∧ out = vs) := by
  intro ps
  induction ps with
  | nil =>
    intro vs out h
    right
    exact ⟨rfl, by simpa [clipAgainstPlanes] using h.symm⟩
  | cons p rest ih =>
    intro vs out h
    simp only [clipAgainstPlanes] at h
    by_cases hlen : (sutherlandHodgmanClip nf vs p).length < 3
    · rw [if_pos hlen] at h
      cases h
    · rw [if_neg hlen] at h
      rcases ih _ _ h with h3 | ⟨-, rfl⟩
      · exact Or.inl h3
      · exact Or.inl (by omega)

lemma clipFaceToFrustum_length (nf : Vector3 → Vector3) (face : Face) (vp : Mat4)
    (out : List ClipVertex) (h : clipFaceToFrustum nf face vp = some out) :
    3 ≤ out.length := by
  unfold clipFaceToFrustum at h
  by_cases hrej : isTriviallyRejected (face.vertices.map (toClipVertex vp)) = true
  · rw [if_pos hrej] at h
    cases h
  · rw [if_neg hrej] at h
    rcases clipAgainstPlanes_length nf frustumPlanes _ _ h with h3 | ⟨habs, -⟩
    · exact h3
    · simp [frustumPlanes] at habs

lemma processFace_double_sided (nf : Vector3 → Vector3) (cam : CameraIface)
    (ow oh : ℕ) (rf : RenderableFace) (cvs : List ClipVertex) (s : Shape)
    (hclip : clipFaceToFrustum nf rf.face cam.vpMatrix = some cvs)
    (hs : rf.shape = some s) (hds : s.doubleSided = true) :
    processFace nf cam ow oh rf =
      some { screenVertices := cvs.map (projectClipVertex cam ow oh)
             faceVertices := cvs.map fun cv => (cv.worldPos, cv.uv)
             normal := (cvs.getD 0 default).normal } := by
  have hlen : 3 ≤ (cvs.map (projectClipVertex cam ow oh)).length := by
    rw [List.length_map]
    exact clipFaceToFrustum_length nf rf.face cam.vpMatrix cvs hclip
  simp only [processFace, hclip]
  rw [if_pos hlen]
  simp [hs, hds]

/-- C6: for a shape that is double-sided, a clipped face is always kept; for
a shape that is not, the face is discarded exactly when the signed
screen-space area of the triangle formed by the first three projected
vertices has the back-facing sign — positive area in the Y-flipped screen
space, the test inverted precisely when the shape's stretch has an odd
number of strictly negative components. -/
theorem claim_C6_backface_culling (nf : Vector3 → Vector3) (cam : CameraIface)
    (ow oh : ℕ) (rf : RenderableFace) (cvs : List ClipVertex)
    (hclip : clipFaceToFrustum nf rf.face cam.vpMatrix = some cvs) :
    (∀ s : Shape, rf.shape = some s → s.doubleSided = true →
      processFace nf cam ow oh rf =
        some { screenVertices := cvs.map (projectClipVertex cam ow oh)
               faceVertices := cvs.map fun cv => (cv.worldPos, cv.uv)
               normal := (cvs.getD 0 default).normal }) ∧
    (∀ (s : Shape) (s0 s1 s2 : ℚ × ℚ × ℚ), rf.shape = some s →
      s.doubleSided = false →
      (cvs.map (projectClipVertex cam ow oh)).getD 0 default = s0 →
      (cvs.map (projectClipVertex cam ow oh)).getD 1 default = s1 →
      (cvs.map (projectClipVertex cam ow oh)).getD 2 default = s2 →
      (processFace nf cam ow oh rf = none ↔
        (if negStretchCount s % 2 = 1 then
          (s1.1 - s0.1) * (s2.2.1 - s0.2.1) - (s2.1 - s0.1) * (s1.2.1 - s0.2.1) < 0
        else
          0 < (s1.1 - s0.1) * (s2.2.1 - s0.2.1) -
            (s2.1 - s0.1) * (s1.2.1 - s0.2.1)))) := by
  have hlen : 3 ≤ (cvs.map (projectClipVertex cam ow oh)).length := by
    rw [List.length_map]
    exact clipFaceToFrustum_length nf rf.face cam.vpMatrix cvs hclip
  constructor
  · exact fun s hs hds => processFace_double_sided nf cam ow oh rf cvs s hclip hs hds
  · intro s s0 s1 s2 hs hds h0 h1 h2
    simp only [processFace, hclip]
    rw [if_pos hlen]
    simp only [hs, hds, h0, h1, h2]
    by_cases hflip : negStretchCount s % 2 = 1
    · by_cases harea : (s1.1 - s0.1) * (s2.2.1 - s0.2.1) -
          (s2.1 - s0.1) * (s1.2.1 - s0.2.1) < 0
      · simp [hflip, harea]
      · simp [hflip, harea]
    · by_cases harea : 0 < (s1.1 - s0.1) * (s2.2.1 - s0.2.1) -
          (s2.1 - s0.1) * (s1.2.1 - s0.2.1)
      · simp [hflip, harea]
      · simp [hflip, harea]

/-- The clip vertices of `testFace` under the identity view-projection. -/
def testCvs : List ClipVertex :=
  [toClipVertex Mat4.identity testVertexA, toClipVertex Mat4.identity testVertexB,
    toClipVertex Mat4.identity testVertexC]

/-- A double-sided shape with unit stretch. -/
def testShapeDS : Shape := ⟨⟨0, 0, 0⟩, ⟨1, 1, 1⟩, true, true⟩

/-- The camera interface with identity view-projection and the identity view
matrix feeding `calculate_depth`. -/
def testCam : CameraIface := ⟨Mat4.identity, cameraCalculateDepth Mat4.identity⟩

/-- `testFace` bound to the double-sided shape. -/
def testRFds : RenderableFace := ⟨testFace, Mat4.identity, some testShapeDS, none⟩

lemma testRFds_clip :
    clipFaceToFrustum id testRFds.face testCam.vpMatrix = some testCvs :=
  clip_all_inside id testFace Mat4.identity _ _ _ rfl testFace_all_inside

theorem claim_C6_witness :
    processFace id testCam 2 2 testRFds =
      some { screenVertices := testCvs.map (projectClipVertex testCam 2 2)
             faceVertices := testCvs.map fun cv => (cv.worldPos, cv.uv)
             normal := (testCvs.getD 0 default).normal } :=
  (claim_C6_backface_culling id testCam 2 2 testRFds testCvs testRFds_clip).1
    testShapeDS rfl rfl

/-- C7: when `render_scene_internal` is driven by a camera whose depth metric
is `Camera::calculate_depth` over the view matrix `view`, the third (depth)
component of every projected screen vertex equals the negated view-space Z of
that vertex's world position; at the concrete world point `(0, 0, -1/2)`
under the identity view, that metric is `1/2` while the NDC Z of the same
point is `-1/2` — the buffer depth is the view-space metric, not the
post-projection NDC Z. -/
theorem claim_C7_view_space_depth (nf : Vector3 → Vector3) (vp view : Mat4)
    (ow oh : ℕ) (rf : RenderableFace) (cvs : List ClipVertex) (out : RenderFace)
    (hclip : clipFaceToFrustum nf rf.face vp = some cvs)
    (hout : processFace nf ⟨vp, cameraCalculateDepth view⟩ ow oh rf = some out) :
    (∀ k, k < out.screenVertices.length →
      (out.screenVertices.getD k default).2.2 =
        -((view.transformPoint3 ((cvs.getD k default).worldPos)).z)) ∧
    cameraCalculateDepth Mat4.identity ⟨0, 0, -(1 / 2)⟩ = 1 / 2 ∧
    (Mat4.identity.mulVec4 ⟨0, 0, -(1 / 2), 1⟩).z /
        (Mat4.identity.mulVec4 ⟨0, 0, -(1 / 2), 1⟩).w = -(1 / 2) := by
  refine ⟨?_,
    by norm_num [cameraCalculateDepth, Mat4.transformPoint3, Mat4.mulVec4, Mat4.identity],
    by norm_num [Mat4.mulVec4, Mat4.identity]⟩
  have hlen : 3 ≤ (cvs.map
      (projectClipVertex ⟨vp, cameraCalculateDepth view⟩ ow oh)).length := by
    rw [List.length_map]
    exact clipFaceToFrustum_length nf rf.face vp cvs hclip
  have hsv : out.screenVertices =
      cvs.map (projectClipVertex ⟨vp, cameraCalculateDepth view⟩ ow oh) := by
    simp only [processFace, hclip] at hout
    rw [if_pos hlen] at hout
    have hgen : ∀ (b : Bool) (r : RenderFace),
        (if b then none else some r) = some out → out = r := by
      intro b r h
      cases b
      · simp only [Bool.false_eq_true, if_false, Option.some.injEq] at h
        exact h.symm
      · simp at h
    rw [hgen _ _ hout]
  intro k hk
  rw [hsv] at hk ⊢
  have hk2 : k < cvs.length := by
    rw [List.length_map] at hk
    exact hk
  rw [List.getD_eq_getElem _ _ hk, List.getElem_map, List.getD_eq_getElem _ _ hk2]
  rfl

/-- The `RenderFace` produced for the double-sided test face. -/
def testOutDS : RenderFace :=
  { screenVertices := testCvs.map (projectClipVertex testCam 2 2)
    faceVertices := testCvs.map fun cv => (cv.worldPos, cv.uv)
    normal := (testCvs.getD 0 default).normal }

theorem claim_C7_witness :
    (testOutDS.screenVertices.getD 0 default).2.2 =
      -((Mat4.identity.transformPoint3 ((testCvs.getD 0 default).worldPos)).z) :=
  (claim_C7_view_space_depth id Mat4.identity Mat4.identity 2 2 testRFds testCvs
    testOutDS testRFds_clip
    (processFace_double_sided id testCam 2 2 testRFds testCvs testShapeDS
      testRFds_clip rfl rfl)).1 0
    (by norm_num [testOutDS, testCvs])

end Crafthead
